import Mathlib

/-!
Verification development for the `dataset-recsys` item-to-item recommendation
system.  The Lean definitions below are shallow embeddings of the Python
sources:

* `src/recommendation_client.py` — a Redis-set-backed recommendation store
  (`Store`, `sadd`, `ingest_json`, `get_recommendations`, `list_usecases`);
* `src/services/dataset_recs_api.py` — the FastAPI query endpoint
  (`recommend_endpoint`) with its error envelope;
* `src/recs_metrics/item_item.py` — the offline evaluation metrics
  (`recall_at_n`, `tndcg_at_n`);
* `src/mathe_recs_pipeline.py` — the similarity index construction
  (`argsort`, `neighbor_list`, `topn_recommendations`, `sim_matrix`) and the
  batch embedding loop (`embeddingLoop`).

Machine floats are idealised as real numbers; Redis is modelled as an
association list from string keys to finite sets of members; fallible Python
code (exceptions) is modelled with `Option`/`Except`.
-/

namespace DatasetRecsys

/-! ## Redis-backed store (`src/recommendation_client.py`)

Redis holds, per key, a set of string members.  We model the keyspace as an
association list from keys to `Finset String`, looked up at the first
matching key. -/

/-- The Redis keyspace visible to `RecommendationClient`. -/
abbrev Store := List (String × Finset String)

/-- Reading the raw value stored at a key: `none` when the key is absent. -/
def lookupKey : Store → String → Option (Finset String)
  | [], _ => none
  | p :: st, k => if p.1 == k then some p.2 else lookupKey st k

/-- Redis `SADD key *members`, as issued by `ingest_json`: add the members to
the set stored at `key`, creating the key when absent.  Existing members stay
(Redis `SADD` merges into the set; it does not clear it). -/
def sadd : Store → String → List String → Store
  | [], k, members => [(k, members.toFinset)]
  | p :: st, k, members =>
    if p.1 == k then (p.1, p.2 ∪ members.toFinset) :: st else p :: sadd st k members

/-- Model of `RecommendationClient._key`: `f"recommendations:{usecase}:{pdf}"`. -/
def recKey (usecase pdf : String) : String :=
  "recommendations:" ++ usecase ++ ":" ++ pdf

/-- Model of `RecommendationClient.ingest_json` after JSON decoding: for each
`(pdf, recs)` entry of the top-level dictionary, `SADD` the listed neighbors
under `recommendations:<usecase>:<pdf>`, or the placeholder member `""` when
the list is empty ("ensure empty sets exist"). -/
def ingest_json (st : Store) (usecase : String) (data : List (String × List String)) : Store :=
  data.foldl
    (fun s p =>
      if p.2 ≠ [] then sadd s (recKey usecase p.1) p.2
      else sadd s (recKey usecase p.1) [""])
    st

/-- Redis `SMEMBERS` as seen through the client: an absent key reads as the
empty set. -/
def smembers (st : Store) (k : String) : Finset String :=
  (lookupKey st k).getD ∅

/-- Model of `RecommendationClient.get_recommendations`: read the set at the
item's key and filter out the empty-string placeholder
(`{r for r in recs if r != ""}`). -/
def get_recommendations (st : Store) (usecase pdf : String) : Finset String :=
  (smembers st (recKey usecase pdf)).filter (fun r => r ≠ "")

/-- Concrete store used as counterexample input for the ingest round-trip: the
key `recommendations:u:x` already holds the member `"old.pdf"`. -/
def staleStore : Store := [("recommendations:u:x", {"old.pdf"})]

/-- Concrete neighbor-list map used by the round-trip witness. -/
def freshData : List (String × List String) := [("6.pdf", ["7.pdf"]), ("9.pdf", [])]

/-! ## Query API (`src/services/dataset_recs_api.py`) -/

/-- Helper for python `str.split(sep)` on character lists: cut at every
occurrence of the separator. -/
def splitAux (c : Char) : List Char → List Char → List (List Char)
  | [], acc => [acc.reverse]
  | x :: xs, acc =>
    if x = c then acc.reverse :: splitAux c xs [] else splitAux c xs (x :: acc)

/-- Python `s.split(c)` for a one-character separator. -/
def pySplit (s : String) (c : Char) : List String :=
  (splitAux c s.data []).map String.mk

/-- Matching of the Redis glob `recommendations:*`: a key matches when it
begins with the literal text before the `*`. -/
def hasPre : List Char → List Char → Bool
  | [], _ => true
  | _, [] => false
  | a :: as, b :: bs => a == b && hasPre as bs

/-- Model of `RecommendationClient.list_usecases`: scan the keys matching
`recommendations:*`, keep `key.split(":")[1]` of each (the glob guarantees a
separator, so index 1 exists and the `getD` default is never used), collect
them into a python set and return `sorted(usecases)`. -/
def list_usecases (st : Store) : List String :=
  List.insertionSort (fun a b : String => a ≤ b)
    ((((st.map Prod.fst).filter (fun k => hasPre "recommendations:".data k.data)).map
      (fun k => (pySplit k ':').getD 1 "")).dedup)

/-- Result of one API request at HTTP level: either the 200 payload
(`ItemToItemRecsResponse`) or an error response produced by the exception
handlers. -/
inductive ApiResult where
  | ok (dataset iid : String) (recommendations : List String)
  | error (code : ℕ) (detail : String)

/-- HTTP status code of a result. -/
def statusOf : ApiResult → ℕ
  | .ok _ _ _ => 200
  | .error c _ => c

/-- JSON error envelope produced by `http_exception_handler` and
`validation_exception_handler` — `{"errors": [{"code": c, "detail": d}]}` —
kept as a list of `(code, detail)` pairs; a 200 response carries none. -/
def errorsOf : ApiResult → List (ℕ × String)
  | .ok _ _ _ => []
  | .error c d => [(c, d)]

/-- Python slicing `lst[:n]` for an `int` bound: a nonnegative bound keeps
the first `n` elements, a negative bound drops the last `-n`. -/
def pySlice {α : Type} (l : List α) (n : ℤ) : List α :=
  if 0 ≤ n then l.take n.toNat else l.take (l.length - (-n).toNat)

/-- Model of `GET /dataset-recsys/recommend`.  FastAPI first validates
`n: int = Query(10, le=20)` — an upper bound only — answering 422 through
`validation_exception_handler`; the handler then 404s on a dataset not in
`list_usecases`, 404s when the filtered neighbor set `recs_set` is empty, and
otherwise returns `list(recs_set)[:n]`.  The arbitrary iteration order of the
python set is modelled as its sorted enumeration; `recs_set` is inlined. -/
def recommend_endpoint (st : Store) (dataset iid : String) (n : ℤ) : ApiResult :=
  if ¬ n ≤ 20 then .error 422 "query parameter validation failed"
  else if dataset ∉ list_usecases st then
    .error 404 ("Dataset '" ++ dataset ++ "' not found")
  else if get_recommendations st dataset iid = ∅ then
    .error 404 ("Item ID '" ++ iid ++ "' not found in dataset '" ++ dataset ++ "'")
  else
    .ok dataset iid
      (pySlice ((get_recommendations st dataset iid).sort (fun a b => a ≤ b)) n)

/-- Concrete one-item store backing the API witnesses. -/
def apiStore : Store := [("recommendations:mathe:6.pdf", {"7.pdf"})]

/-! ## Evaluation metrics (`src/recs_metrics/item_item.py`) -/

/-- Python `ground_truth.get(item_id, set())`. -/
def gtLookup (ground_truth : List (String × Finset String)) (item_id : String) :
    Finset String :=
  ((ground_truth.find? (fun q => q.1 == item_id)).map Prod.snd).getD ∅

/-- Negation of the `if not true_related: continue` guard shared by both
metric loops: the entries that contribute to the average. -/
def scored (ground_truth : List (String × Finset String))
    (p : String × List String) : Prop :=
  ¬ gtLookup ground_truth p.1 = ∅

instance {gt : List (String × Finset String)} : DecidablePred (scored gt) :=
  fun _ => inferInstanceAs (Decidable (¬ _))

/-- One loop iteration of `recall_at_n`: `len(hits) / len(true_related)` with
`hits = set(predicted[:n]) & true_related`. -/
def recallOf (ground_truth : List (String × Finset String)) (n : ℕ)
    (p : String × List String) : ℚ :=
  (((p.2.take n).toFinset ∩ gtLookup ground_truth p.1).card : ℚ)
    / ((gtLookup ground_truth p.1).card : ℚ)

/-- Model of `recall_at_n`: iterate the prediction entries in order, skip the
entries with empty ground truth, collect the per-entry recalls, and finally
return `sum(recalls) / len(recalls)`; the `ZeroDivisionError` raised on an
empty `recalls` list is modelled as `none`. -/
def recall_at_n (predictions : List (String × List String))
    (ground_truth : List (String × Finset String)) (n : ℕ) : Option ℚ :=
  let recalls := predictions.foldl
    (fun recalls p =>
      if gtLookup ground_truth p.1 = ∅ then recalls
      else recalls ++ [recallOf ground_truth n p]) []
  if recalls.length = 0 then none
  else some (recalls.sum / (recalls.length : ℚ))

/-- Descending comparison used by `sorted(relevance_scores, reverse=True)`. -/
def descRel (a b : ℕ) : Prop := b ≤ a

instance : DecidableRel descRel := fun a b => inferInstanceAs (Decidable (b ≤ a))

instance : IsTotal ℕ descRel := ⟨fun a b => le_total b a⟩

instance : IsTrans ℕ descRel := ⟨fun _ _ _ h1 h2 => le_trans h2 h1⟩

/-- Binary relevance of the top-`n` predictions of one entry:
`[1 if pid in true_related else 0 for pid in top_n]`. -/
def relevance_scores (ground_truth : List (String × Finset String)) (n : ℕ)
    (p : String × List String) : List ℕ :=
  (p.2.take n).map (fun pid => if pid ∈ gtLookup ground_truth p.1 then 1 else 0)

/-- The nested `dcg` helper of `tndcg_at_n`,
`sum(rel / np.log2(idx + 2) for idx, rel in enumerate(relevance_scores))`,
written with an explicit running index instead of `enumerate`. -/
noncomputable def dcgAux : ℕ → List ℕ → ℝ
  | _, [] => 0
  | idx, rel :: rest => (rel : ℝ) / Real.logb 2 ((idx : ℝ) + 2) + dcgAux (idx + 1) rest

/-- `dcg(relevance_scores)` starting at index 0. -/
noncomputable def dcg (relevance : List ℕ) : ℝ := dcgAux 0 relevance

/-- One loop iteration of `tndcg_at_n`: `dcg_val / idcg_val` where the ideal
scores are the relevance scores sorted descending, or `0.0` when the ideal
DCG is not positive. -/
noncomputable def ndcgOf (ground_truth : List (String × Finset String)) (n : ℕ)
    (p : String × List String) : ℝ :=
  if 0 < dcg (List.insertionSort descRel (relevance_scores ground_truth n p))
  then dcg (relevance_scores ground_truth n p)
    / dcg (List.insertionSort descRel (relevance_scores ground_truth n p))
  else 0

/-- Model of `tndcg_at_n`: iterate the prediction entries in order, skip the
entries with empty ground truth, collect the per-entry NDCG values, and
return `sum(ndcgs) / len(ndcgs)`; the `ZeroDivisionError` on an empty list is
modelled as `none`. -/
noncomputable def tndcg_at_n (predictions : List (String × List String))
    (ground_truth : List (String × Finset String)) (n : ℕ) : Option ℝ :=
  let ndcgs := predictions.foldl
    (fun ndcgs p =>
      if gtLookup ground_truth p.1 = ∅ then ndcgs
      else ndcgs ++ [ndcgOf ground_truth n p]) []
  if ndcgs.length = 0 then none
  else some (ndcgs.sum / (ndcgs.length : ℝ))

/-- Prediction map of the spec's Recall@N scenario. -/
def scenarioPreds : List (String × List String) := [("x", ["a", "b", "c"])]

/-- Ground-truth map of the spec's Recall@N scenario. -/
def scenarioGT : List (String × Finset String) := [("x", {"a", "z"})]

/-! ## Similarity index construction (`src/mathe_recs_pipeline.py`) -/

/-- Comparison key used to model `np.argsort` on an enumerated row:
ascending by value, with equal values kept in position order.  Numpy's
default `kind='quicksort'` (introsort) is documented as not stable, so the
relative order of equal values in the real program is implementation-defined
for longer rows; accordingly, only facts that are independent of the tie
order (the values are ascending, the output is a permutation of the indices)
are proved from this model universally.  Tie-order facts are stated only on
small concrete rows, where numpy's introsort is an insertion sort (below its
16-element threshold) and therefore genuinely stable. -/
def argRel {α : Type} [LinearOrder α] (p q : ℕ × α) : Prop :=
  p.2 < q.2 ∨ (p.2 = q.2 ∧ p.1 ≤ q.1)

instance {α : Type} [LinearOrder α] : DecidableRel (argRel (α := α)) :=
  fun _ _ => inferInstanceAs (Decidable (_ ∨ _))

instance {α : Type} [LinearOrder α] : IsTotal (ℕ × α) argRel :=
  ⟨fun p q => by
    rcases lt_trichotomy p.2 q.2 with h | h | h
    · exact Or.inl (Or.inl h)
    · rcases le_total p.1 q.1 with h1 | h1
      · exact Or.inl (Or.inr ⟨h, h1⟩)
      · exact Or.inr (Or.inr ⟨h.symm, h1⟩)
    · exact Or.inr (Or.inl h)⟩

instance {α : Type} [LinearOrder α] : IsTrans (ℕ × α) argRel :=
  ⟨by
    rintro a b c (hab | ⟨hab, hab'⟩) (hbc | ⟨hbc, hbc'⟩)
    · exact Or.inl (lt_trans hab hbc)
    · exact Or.inl (lt_of_lt_of_le hab (le_of_eq hbc))
    · exact Or.inl (lt_of_le_of_lt (le_of_eq hab) hbc)
    · exact Or.inr ⟨hab.trans hbc, le_trans hab' hbc'⟩⟩

/-- Model of `np.argsort(xs)`: the indices of `xs` in ascending order of
value, equal values in ascending index order. -/
def argsort {α : Type} [LinearOrder α] (xs : List α) : List ℕ :=
  (List.insertionSort argRel xs.enum).map Prod.fst

/-- The bracketed comprehension of `topn_recommendations` before slicing:
`[j for j in np.argsort(sim_matrix[i])[::-1] if j != i]`. -/
def neighbor_idx {α : Type} [LinearOrder α] (sim : List (List α)) (i : ℕ) :
    List ℕ :=
  ((argsort (sim.getD i [])).reverse).filter (fun j => decide (j ≠ i))

/-- One item's neighbor list,
`[idx_to_material_id[j] for j in np.argsort(sim_matrix[i])[::-1] if j != i][:n]`. -/
def neighbor_list {α : Type} [LinearOrder α] (sim : List (List α))
    (idMap : ℕ → String) (n i : ℕ) : List String :=
  ((neighbor_idx sim i).map idMap).take n

/-- The `topn_recommendations` dict comprehension: for each row index `i` of
the similarity matrix, the item id paired with its neighbor list, in the
insertion order of the comprehension. -/
def topn_recommendations {α : Type} [LinearOrder α] (sim : List (List α))
    (idMap : ℕ → String) (n : ℕ) : List (String × List String) :=
  (List.range sim.length).map (fun i => (idMap i, neighbor_list sim idMap n i))

/-- Dot product of two rows. -/
noncomputable def dot (u v : List ℝ) : ℝ :=
  (List.zipWith (fun a b => a * b) u v).sum

/-- Row norm `np.linalg.norm(v)` (L2). -/
noncomputable def l2norm (v : List ℝ) : ℝ :=
  Real.sqrt ((v.map (fun x => x * x)).sum)

/-- Row normalisation
`loaded_embeddings / np.linalg.norm(loaded_embeddings, axis=1, keepdims=True)`. -/
noncomputable def normed_embs (embs : List (List ℝ)) : List (List ℝ) :=
  embs.map (fun v => v.map (fun x => x / l2norm v))

/-- Cosine similarity matrix `sim_matrix = np.dot(normed_embs, normed_embs.T)`:
entry `(i, j)` is the dot product of normalised rows `i` and `j`. -/
noncomputable def sim_matrix (embs : List (List ℝ)) : List (List ℝ) :=
  (normed_embs embs).map (fun u => (normed_embs embs).map (fun v => dot u v))

/-- All-ties integer similarity matrix of three pairwise-identical
embeddings, used by the tie-break counterexample and witness. -/
def simTie : List (List ℤ) := [[1, 1, 1], [1, 1, 1], [1, 1, 1]]

/-- Digit index map used with `simTie`. -/
def idMapDigits : ℕ → String :=
  fun j => if j = 0 then "0" else if j = 1 then "1" else "2"

/-- Two-row real embedding matrix used by the C1 witness. -/
def embsPair : List (List ℝ) := [[1, 0], [0, 1]]

/-- Index map used by the C1 witness. -/
def idMapPair : ℕ → String := fun j => if j = 0 then "a.pdf" else "b.pdf"

/-! ## Batch embedding loop (`src/mathe_recs_pipeline.py`, step 1) -/

/-- One corpus record, `{"id": ..., "contents": ...}`. -/
structure MaterialRecord where
  id : String
  contents : String
deriving DecidableEq

/-- `Path(d["id"]).name`: the final path component. -/
def pathName (s : String) : String := (pySplit s '/').getLastD s

/-- `np.mean(chunk_embs, axis=0)`: element-wise mean of the chunk vectors
(the loop only reaches it with at least one chunk). -/
def npMean (vs : List (List ℚ)) : List ℚ :=
  match vs with
  | [] => []
  | v0 :: _ =>
    (List.range v0.length).map
      (fun j => (vs.map (fun v => v.getD j 0)).sum / (vs.length : ℚ))

/-- One iteration body of the embedding loop: an item not over the token
limit is encoded directly (`model.encode(text)`); an over-limit item is split
(`splitter(text)`), every chunk encoded, and the chunk embeddings averaged.
The encoder and splitter are abstract parameters; an encoding failure is
`Except.error`.  No branch skips an item and no exception is caught. -/
def embedItem (encode : String → Except String (List ℚ))
    (split : String → List String) (over_limit_ids : List String)
    (d : MaterialRecord) : Except String (List ℚ) :=
  if d.id ∉ over_limit_ids then encode d.contents
  else do
    let chunk_embs ← (split d.contents).mapM encode
    pure (npMean chunk_embs)

/-- Python dict insertion `embeddings[material_id] = emb`: overwrite the
existing key in place or append a new entry. -/
def dictInsert (m : List (String × List ℚ)) (k : String) (v : List ℚ) :
    List (String × List ℚ) :=
  if m.any (fun p => p.1 == k) then
    m.map (fun p => if p.1 == k then (p.1, v) else p)
  else m ++ [(k, v)]

/-- The embedding loop `for idx, d in enumerate(data, 1): ...`, building the
`embeddings` dict keyed by `Path(d["id"]).name`; an uncaught encoding error
aborts the whole fold. -/
def embeddingLoop (encode : String → Except String (List ℚ))
    (split : String → List String) (over_limit_ids : List String)
    (data : List MaterialRecord) : Except String (List (String × List ℚ)) :=
  data.foldlM
    (fun embeddings d => do
      let emb ← embedItem encode split over_limit_ids d
      pure (dictInsert embeddings (pathName d.id) emb))
    []

/-- Encoder that fails exactly on empty text and returns a fixed embedding
otherwise; used by the C8 counterexample. -/
def encodeFailEmpty : String → Except String (List ℚ) :=
  fun s => if s = "" then Except.error "cannot encode" else Except.ok [1]

/-- Total encoder returning a fixed embedding; used by the C8 witness. -/
def encodeConst : String → Except String (List ℚ) := fun _ => Except.ok [1]

/-- Trivial one-chunk splitter used with the concrete encoders. -/
def splitOne : String → List String := fun s => [s]

/-- Corpus with an empty-text record followed by a normal record. -/
def dataWithEmpty : List MaterialRecord :=
  [⟨"materials/5.pdf", ""⟩, ⟨"materials/6.pdf", "some text"⟩]

/-! ## Lemmas and theorems -/

theorem lookupKey_sadd_self (st : Store) (k : String) (members : List String) :
    lookupKey (sadd st k members) k
      = some ((lookupKey st k).getD ∅ ∪ members.toFinset) := by
  induction st with
  | nil => simp [sadd, lookupKey]
  | cons p st ih =>
    by_cases h : p.1 = k
    · simp [sadd, lookupKey, h]
    · have hb : (p.1 == k) = false := beq_eq_false_iff_ne.mpr h
      simp [sadd, lookupKey, hb, ih]

theorem lookupKey_sadd_ne (st : Store) (k k' : String) (members : List String)
    (h : k' ≠ k) : lookupKey (sadd st k members) k' = lookupKey st k' := by
  induction st with
  | nil =>
    have hb : (k == k') = false := beq_eq_false_iff_ne.mpr (Ne.symm h)
    simp [sadd, lookupKey, hb]
  | cons p st ih =>
    by_cases hp : p.1 = k
    · have hb : (p.1 == k) = true := beq_iff_eq.mpr hp
      have hb' : (p.1 == k') = false := beq_eq_false_iff_ne.mpr (by rw [hp]; exact Ne.symm h)
      simp [sadd, lookupKey, hb, hb']
    · have hb : (p.1 == k) = false := beq_eq_false_iff_ne.mpr hp
      simp only [sadd, hb, if_false, lookupKey]
      by_cases hq : p.1 = k'
      · simp [hq]
      · have hb' : (p.1 == k') = false := beq_eq_false_iff_ne.mpr hq
        simp [hb', ih]

theorem recKey_inj (u p q : String) (h : recKey u p = recKey u q) : p = q := by
  have h2 := congrArg String.data h
  simp only [recKey, String.data_append, List.append_assoc] at h2
  exact String.ext (List.append_cancel_left (List.append_cancel_left
    (List.append_cancel_left h2)))

theorem ingest_json_cons (st : Store) (u : String) (p : String × List String)
    (rest : List (String × List String)) :
    ingest_json st u (p :: rest)
      = ingest_json
          (if p.2 ≠ [] then sadd st (recKey u p.1) p.2 else sadd st (recKey u p.1) [""])
          u rest := rfl

theorem ingest_json_lookup_untouched (usecase : String) (k : String) :
    ∀ (data : List (String × List String)) (st : Store),
      (∀ p ∈ data, recKey usecase p.1 ≠ k) →
      lookupKey (ingest_json st usecase data) k = lookupKey st k := by
  intro data
  induction data with
  | nil => intro st _; simp [ingest_json]
  | cons p rest ih =>
    intro st h
    have hp : recKey usecase p.1 ≠ k := h p (by simp)
    have hrest : ∀ q ∈ rest, recKey usecase q.1 ≠ k := fun q hq => h q (by simp [hq])
    rw [ingest_json_cons, ih _ hrest]
    by_cases hnil : p.2 = [] <;>
      simp [hnil, lookupKey_sadd_ne _ _ _ _ (Ne.symm hp)]

theorem ingest_json_fresh_lookup (st : Store) (usecase : String)
    (data : List (String × List String))
    (hnd : (data.map Prod.fst).Nodup)
    (hfresh : ∀ p ∈ data, lookupKey st (recKey usecase p.1) = none) :
    ∀ p ∈ data,
      lookupKey (ingest_json st usecase data) (recKey usecase p.1)
        = some (if p.2 = [] then {""} else p.2.toFinset) := by
  induction data generalizing st with
  | nil => intro p hp; cases hp
  | cons q rest ih =>
    have hnd2 : (q.1 :: rest.map Prod.fst).Nodup := by
      simpa only [List.map_cons] using hnd
    have hnodup := List.nodup_cons.mp hnd2
    have hq1 : q.1 ∉ rest.map Prod.fst := hnodup.1
    have hne : ∀ r ∈ rest, recKey usecase r.1 ≠ recKey usecase q.1 := by
      intro r hr he
      exact hq1 (List.mem_map.mpr ⟨r, hr, (recKey_inj _ _ _ he).symm ▸ rfl⟩)
    intro p hp
    rcases List.mem_cons.mp hp with rfl | hp
    · rw [ingest_json_cons,
        ingest_json_lookup_untouched usecase (recKey usecase p.1) rest _ hne]
      have h0 : lookupKey st (recKey usecase p.1) = none := hfresh p (by simp)
      by_cases hnil : p.2 = []
      · simp [hnil, lookupKey_sadd_self, h0]
      · simp [hnil, lookupKey_sadd_self, h0]
    · rw [ingest_json_cons]
      refine ih _ hnodup.2 ?_ p hp
      intro r hr
      have hrq : recKey usecase r.1 ≠ recKey usecase q.1 := hne r hr
      by_cases hnil : q.2 = [] <;>
        simp [hnil, lookupKey_sadd_ne _ _ _ _ hrq, hfresh r (List.mem_cons_of_mem _ hr)]

/-- C3 (amended): over fresh keys the ingest/query round-trip is exact.  For
every namespace and neighbor-list map with distinct keys, starting from a
store in which none of the ingested keys is present, after `ingest_json` each
ingested item's persisted set is exactly the set of its given neighbors (with
the placeholder member `""` standing in when the list is empty), and a
subsequent `get_recommendations` on each ingested key returns exactly the
ingested neighbors with any empty-string member removed — hence exactly the
ingested set whenever it does not contain `""`.  (On a store that already
holds one of the keys, old members are merged, not replaced; see the
counterexample.) -/
theorem ingest_fresh_roundtrip (st : Store) (usecase : String)
    (data : List (String × List String))
    (hnd : (data.map Prod.fst).Nodup)
    (hfresh : ∀ p ∈ data, lookupKey st (recKey usecase p.1) = none) :
    ∀ p ∈ data,
      lookupKey (ingest_json st usecase data) (recKey usecase p.1)
          = some (if p.2 = [] then {""} else p.2.toFinset)
        ∧ get_recommendations (ingest_json st usecase data) usecase p.1
          = p.2.toFinset.erase "" := by
  intro p hp
  have hl := ingest_json_fresh_lookup st usecase data hnd hfresh p hp
  refine ⟨hl, ?_⟩
  unfold get_recommendations smembers
  rw [hl]
  by_cases hnil : p.2 = []
  · simp [hnil, Finset.filter_ne']
  · simp [hnil, Finset.filter_ne']

/-- C3 witness: ingesting `{"6.pdf": ["7.pdf"], "9.pdf": []}` into an empty
store and querying the two keys returns `{"7.pdf"}` and `∅` respectively. -/
theorem ingest_fresh_roundtrip_witness :
    get_recommendations (ingest_json [] "mathe" freshData) "mathe" "6.pdf" = {"7.pdf"}
      ∧ get_recommendations (ingest_json [] "mathe" freshData) "mathe" "9.pdf" = ∅ := by
  have h6 := (ingest_fresh_roundtrip [] "mathe" freshData (by decide) (by decide)
      ("6.pdf", ["7.pdf"]) (by decide)).2
  have h9 := (ingest_fresh_roundtrip [] "mathe" freshData (by decide) (by decide)
      ("9.pdf", []) (by decide)).2
  exact ⟨h6.trans (by decide), h9.trans (by decide)⟩

/-- C3 counterexample: the claim fails on a prior store state that already
holds the ingested key.  With `recommendations:u:x` already containing
`"old.pdf"`, ingesting `{"x": ["new.pdf"]}` yields the merged set
`{"old.pdf", "new.pdf"}`, not the ingested set `{"new.pdf"}`: `SADD` merges
into an existing Redis set instead of replacing it. -/
theorem ingest_merge_counterexample :
    get_recommendations (ingest_json staleStore "u" [("x", ["new.pdf"])]) "u" "x"
        = {"old.pdf", "new.pdf"}
      ∧ ({"old.pdf", "new.pdf"} : Finset String) ≠ {"new.pdf"} := by
  exact ⟨by decide, by decide⟩

/-- C10: the store's query path never returns a set containing the empty
string — the placeholder member `""` is always filtered out of the result of
`get_recommendations`, so an ingested neighbor list that itself contains `""`
loses that member on lookup. -/
theorem get_recommendations_no_empty_string (st : Store) (usecase pdf : String) :
    "" ∉ get_recommendations st usecase pdf := by
  intro h
  exact (Finset.mem_filter.mp h).2 rfl

/-- C10 witness: the no-empty-string invariant applied at a concrete store. -/
theorem get_recommendations_no_empty_string_witness :
    "" ∉ get_recommendations [("recommendations:u:x", {"", "a.pdf"})] "u" "x" :=
  get_recommendations_no_empty_string [("recommendations:u:x", {"", "a.pdf"})] "u" "x"

theorem get_recommendations_empty_iff (st : Store) (d i : String) :
    get_recommendations st d i = ∅
      ↔ lookupKey st (recKey d i) = none
        ∨ smembers st (recKey d i) = ∅ ∨ smembers st (recKey d i) = {""} := by
  unfold get_recommendations
  rw [Finset.filter_ne', Finset.erase_eq_empty_iff]
  constructor
  · rintro (h | h)
    · exact Or.inr (Or.inl h)
    · exact Or.inr (Or.inr h)
  · rintro (h | h | h)
    · left; unfold smembers; rw [h]; rfl
    · left; exact h
    · right; exact h

/-- C4: with valid parameters (`n ≤ 20`), `GET /recommend` answers 404 — and
then its body satisfies `errors[0].code = 404` — exactly when the dataset is
not among the known namespaces, or the item's key is absent from the store,
or its stored set is empty, or it holds only the explicit empty-set marker
`""` (an item ingested with an explicitly empty recommendation list); in
every other case it answers 200. -/
theorem recommend_404_characterization (st : Store) (dataset iid : String)
    (n : ℤ) (hn : n ≤ 20) :
    (statusOf (recommend_endpoint st dataset iid n) = 404
      ↔ dataset ∉ list_usecases st
        ∨ lookupKey st (recKey dataset iid) = none
        ∨ smembers st (recKey dataset iid) = ∅
        ∨ smembers st (recKey dataset iid) = {""})
    ∧ (statusOf (recommend_endpoint st dataset iid n) = 404 →
        (errorsOf (recommend_endpoint st dataset iid n)).map Prod.fst = [404])
    ∧ (¬ (dataset ∉ list_usecases st
          ∨ lookupKey st (recKey dataset iid) = none
          ∨ smembers st (recKey dataset iid) = ∅
          ∨ smembers st (recKey dataset iid) = {""}) →
        statusOf (recommend_endpoint st dataset iid n) = 200) := by
  have h20 : ¬ ¬ n ≤ 20 := not_not_intro hn
  unfold recommend_endpoint
  rw [if_neg h20]
  by_cases hd : dataset ∉ list_usecases st
  · rw [if_pos hd]
    exact ⟨⟨fun _ => Or.inl hd, fun _ => rfl⟩, fun _ => rfl,
      fun hcon => absurd (Or.inl hd) hcon⟩
  · rw [if_neg hd]
    by_cases hg : get_recommendations st dataset iid = ∅
    · rw [if_pos hg]
      have hrhs := (get_recommendations_empty_iff st dataset iid).mp hg
      exact ⟨⟨fun _ => Or.inr hrhs, fun _ => rfl⟩, fun _ => rfl,
        fun hcon => absurd (Or.inr hrhs) hcon⟩
    · rw [if_neg hg]
      refine ⟨⟨fun h200 => absurd h200 (by simp [statusOf]), ?_⟩, ?_, fun _ => rfl⟩
      · rintro (h | h)
        · exact absurd h hd
        · exact absurd ((get_recommendations_empty_iff st dataset iid).mpr h) hg
      · intro h
        exact absurd h (by simp [statusOf])

/-- C4 witness: the spec scenario — querying `/recommend?dataset=unknown&iid=x`
with `n = 10` against a store holding only the `mathe` namespace — answers
404. -/
theorem recommend_404_witness :
    statusOf (recommend_endpoint apiStore "unknown" "x" 10) = 404 :=
  (recommend_404_characterization apiStore "unknown" "x" 10 (by decide)).1.mpr
    (Or.inl (by decide))

/-- C9: the `n` query parameter is validated only against the upper bound 20
and has no lower bound: for a known dataset and an item whose stored set is
non-empty, `n = 0` is accepted and yields 200 with an empty recommendations
list (not a 422 validation error), and every negative `n` is likewise
accepted with a 200 response. -/
theorem recommend_no_lower_bound (st : Store) (dataset iid : String)
    (hd : dataset ∈ list_usecases st)
    (hne : get_recommendations st dataset iid ≠ ∅) :
    recommend_endpoint st dataset iid 0 = .ok dataset iid []
      ∧ ∀ n : ℤ, n < 0 → statusOf (recommend_endpoint st dataset iid n) = 200 := by
  constructor
  · unfold recommend_endpoint
    rw [if_neg (not_not_intro (by norm_num : (0:ℤ) ≤ 20)),
      if_neg (not_not_intro hd), if_neg hne]
    simp [pySlice]
  · intro n hn
    unfold recommend_endpoint
    rw [if_neg (not_not_intro (le_trans hn.le (by norm_num))),
      if_neg (not_not_intro hd), if_neg hne]
    rfl

/-- C9 witness: on the concrete store, `n = 0` answers 200 with `[]`, and the
negative bound `n = -3` is accepted with a 200 answer. -/
theorem recommend_no_lower_bound_witness :
    recommend_endpoint apiStore "mathe" "6.pdf" 0 = .ok "mathe" "6.pdf" []
      ∧ statusOf (recommend_endpoint apiStore "mathe" "6.pdf" (-3)) = 200 := by
  have h := recommend_no_lower_bound apiStore "mathe" "6.pdf" (by decide) (by decide)
  exact ⟨h.1, h.2 (-3) (by norm_num)⟩

theorem recall_loop_eq (gt : List (String × Finset String)) (n : ℕ)
    (preds : List (String × List String)) :
    ∀ acc : List ℚ,
      preds.foldl
        (fun recalls p =>
          if gtLookup gt p.1 = ∅ then recalls
          else recalls ++ [recallOf gt n p]) acc
        = acc ++ (preds.filter (fun p => decide (scored gt p))).map (recallOf gt n) := by
  induction preds with
  | nil => intro acc; simp
  | cons p rest ih =>
    intro acc
    by_cases h : gtLookup gt p.1 = ∅
    · rw [List.foldl_cons, if_pos h, ih]
      simp [scored, h]
    · rw [List.foldl_cons, if_neg h, ih]
      simp [scored, h]

theorem ndcg_loop_eq (gt : List (String × Finset String)) (n : ℕ)
    (preds : List (String × List String)) :
    ∀ acc : List ℝ,
      preds.foldl
        (fun ndcgs p =>
          if gtLookup gt p.1 = ∅ then ndcgs
          else ndcgs ++ [ndcgOf gt n p]) acc
        = acc ++ (preds.filter (fun p => decide (scored gt p))).map (ndcgOf gt n) := by
  induction preds with
  | nil => intro acc; simp
  | cons p rest ih =>
    intro acc
    by_cases h : gtLookup gt p.1 = ∅
    · rw [List.foldl_cons, if_pos h, ih]
      simp [scored, h]
    · rw [List.foldl_cons, if_neg h, ih]
      simp [scored, h]

theorem recall_at_n_eq (preds : List (String × List String))
    (gt : List (String × Finset String)) (n : ℕ) :
    recall_at_n preds gt n
      = if (preds.filter (fun p => decide (scored gt p))).length = 0 then none
        else some
          (((preds.filter (fun p => decide (scored gt p))).map (recallOf gt n)).sum
            / ((preds.filter (fun p => decide (scored gt p))).length : ℚ)) := by
  simp only [recall_at_n]
  rw [recall_loop_eq gt n preds []]
  simp only [List.nil_append, List.length_map]

theorem tndcg_at_n_eq (preds : List (String × List String))
    (gt : List (String × Finset String)) (n : ℕ) :
    tndcg_at_n preds gt n
      = if (preds.filter (fun p => decide (scored gt p))).length = 0 then none
        else some
          (((preds.filter (fun p => decide (scored gt p))).map (ndcgOf gt n)).sum
            / ((preds.filter (fun p => decide (scored gt p))).length : ℝ)) := by
  simp only [tndcg_at_n]
  rw [ndcg_loop_eq gt n preds []]
  simp only [List.nil_append, List.length_map]

theorem filter_scored_length_zero_iff (preds : List (String × List String))
    (gt : List (String × Finset String)) :
    (preds.filter (fun p => decide (scored gt p))).length = 0
      ↔ ∀ p ∈ preds, gtLookup gt p.1 = ∅ := by
  rw [List.length_eq_zero, List.filter_eq_nil_iff]
  constructor
  · intro h p hp
    have := h p hp
    simpa [scored] using this
  · intro h p hp
    simpa [scored] using h p hp

/-- C6: both metric functions raise an error — the `ZeroDivisionError` of
`sum(...) / len(...)`, modelled as `none` — rather than return a number,
exactly when no prediction entry has non-empty ground truth (the set of
evaluable ids is empty); they never silently return 0 in that case. -/
theorem metrics_none_iff_no_scored (preds : List (String × List String))
    (gt : List (String × Finset String)) (n : ℕ) :
    (recall_at_n preds gt n = none ↔ ∀ p ∈ preds, gtLookup gt p.1 = ∅)
      ∧ (tndcg_at_n preds gt n = none ↔ ∀ p ∈ preds, gtLookup gt p.1 = ∅) := by
  constructor
  · rw [recall_at_n_eq]
    by_cases h : (preds.filter (fun p => decide (scored gt p))).length = 0
    · rw [if_pos h]
      exact ⟨fun _ => (filter_scored_length_zero_iff preds gt).mp h, fun _ => rfl⟩
    · rw [if_neg h]
      exact ⟨fun hc => absurd hc (by simp),
        fun hall => absurd ((filter_scored_length_zero_iff preds gt).mpr hall) h⟩
  · rw [tndcg_at_n_eq]
    by_cases h : (preds.filter (fun p => decide (scored gt p))).length = 0
    · rw [if_pos h]
      exact ⟨fun _ => (filter_scored_length_zero_iff preds gt).mp h, fun _ => rfl⟩
    · rw [if_neg h]
      exact ⟨fun hc => absurd hc (by simp),
        fun hall => absurd ((filter_scored_length_zero_iff preds gt).mpr hall) h⟩

/-- C5: whenever at least one prediction entry has non-empty ground truth,
`recall_at_n` returns exactly the plain average, over the prediction entries
with non-empty ground truth, of `|first n predicted ∩ ground_truth| /
|ground_truth|`; at the spec scenario the value is 1/2 (see the witness). -/
theorem recall_at_n_spec (preds : List (String × List String))
    (gt : List (String × Finset String)) (n : ℕ)
    (hx : ∃ p ∈ preds, ¬ gtLookup gt p.1 = ∅) :
    recall_at_n preds gt n
      = some (((preds.filter (fun p => decide (scored gt p))).map (recallOf gt n)).sum
        / ((preds.filter (fun p => decide (scored gt p))).length : ℚ)) := by
  rw [recall_at_n_eq]
  rcases hx with ⟨p, hp, hpt⟩
  have hmem : p ∈ preds.filter (fun p => decide (scored gt p)) :=
    List.mem_filter.mpr ⟨hp, by simpa [scored] using hpt⟩
  have hne : ¬ (preds.filter (fun p => decide (scored gt p))).length = 0 := by
    rw [List.length_eq_zero]
    intro hnil
    rw [hnil] at hmem
    cases hmem
  rw [if_neg hne]

/-- C5 witness: the spec scenario
`RecallAtN({"x": ["a","b","c"]}, {"x": {"a","z"}}, n=3)` evaluates to 1/2. -/
theorem recall_at_n_spec_witness :
    recall_at_n scenarioPreds scenarioGT 3 = some (1 / 2) := by
  have h := recall_at_n_spec scenarioPreds scenarioGT 3
    ⟨("x", ["a", "b", "c"]), by decide, by decide⟩
  rw [h]
  have hf : List.filter (fun p => decide (scored scenarioGT p)) scenarioPreds
      = [("x", ["a", "b", "c"])] := by decide
  rw [hf]
  have h1 : ((["a", "b", "c"].take 3).toFinset ∩ gtLookup scenarioGT "x").card = 1 := by
    decide
  have h2 : (gtLookup scenarioGT "x").card = 2 := by decide
  simp only [List.map_cons, List.map_nil, List.length_cons, List.length_nil, recallOf]
  rw [h1, h2]
  norm_num

theorem dcgAux_nil (k : ℕ) : dcgAux k [] = 0 := rfl

theorem dcgAux_cons (k r : ℕ) (t : List ℕ) :
    dcgAux k (r :: t) = (r : ℝ) / Real.logb 2 ((k : ℝ) + 2) + dcgAux (k + 1) t := rfl

theorem logb_base_pos (k : ℕ) : 0 < Real.logb 2 ((k : ℝ) + 2) := by
  refine Real.logb_pos (by norm_num) ?_
  have : (0 : ℝ) ≤ (k : ℝ) := Nat.cast_nonneg k
  linarith

theorem dcgAux_nonneg (l : List ℕ) : ∀ k : ℕ, 0 ≤ dcgAux k l := by
  induction l with
  | nil => intro k; simp [dcgAux]
  | cons r t ih =>
    intro k
    have h1 : 0 ≤ (r : ℝ) / Real.logb 2 ((k : ℝ) + 2) :=
      div_nonneg (Nat.cast_nonneg r) (logb_base_pos k).le
    have h2 := ih (k + 1)
    rw [dcgAux_cons]
    linarith

theorem dcgAux_replicate_zero (m : ℕ) : ∀ k : ℕ, dcgAux k (List.replicate m 0) = 0 := by
  induction m with
  | zero => intro k; simp [dcgAux]
  | succ m ih => intro k; simp [List.replicate_succ, dcgAux, ih]

theorem dcgAux_append (l₁ l₂ : List ℕ) :
    ∀ k : ℕ, dcgAux k (l₁ ++ l₂) = dcgAux k l₁ + dcgAux (k + l₁.length) l₂ := by
  induction l₁ with
  | nil => intro k; simp [dcgAux]
  | cons r t ih =>
    intro k
    rw [List.cons_append, dcgAux_cons, dcgAux_cons, ih (k + 1)]
    have he : k + (r :: t).length = k + 1 + t.length := by
      simp [List.length_cons]; omega
    rw [he]
    ring

theorem dcgAux_shift_replicate_le (c : ℕ) :
    ∀ k : ℕ, dcgAux (k + 1) (List.replicate c 1) ≤ dcgAux k (List.replicate c 1) := by
  induction c with
  | zero => intro k; simp [dcgAux]
  | succ c ih =>
    intro k
    rw [List.replicate_succ, dcgAux_cons, dcgAux_cons]
    have hmono : Real.logb 2 ((k : ℝ) + 2) ≤ Real.logb 2 (((k + 1 : ℕ) : ℝ) + 2) := by
      refine Real.logb_le_logb_of_le (by norm_num) ?_ ?_
      · have : (0 : ℝ) ≤ (k : ℝ) := Nat.cast_nonneg k
        linarith
      · push_cast
        linarith
    have hdiv : ((1 : ℕ) : ℝ) / Real.logb 2 (((k + 1 : ℕ) : ℝ) + 2)
        ≤ ((1 : ℕ) : ℝ) / Real.logb 2 ((k : ℝ) + 2) := by
      simp only [Nat.cast_one]
      exact one_div_le_one_div_of_le (logb_base_pos k) hmono
    exact add_le_add hdiv (ih (k + 1))

theorem dcgAux_le_count_one (l : List ℕ) :
    (∀ r ∈ l, r ≤ 1) →
    ∀ k : ℕ, dcgAux k l ≤ dcgAux k (List.replicate (l.count 1) 1) := by
  induction l with
  | nil => intro _ k; simp [dcgAux]
  | cons r t ih =>
    intro hle k
    have hr : r ≤ 1 := hle r (by simp)
    have ht : ∀ x ∈ t, x ≤ 1 := fun x hx => hle x (by simp [hx])
    interval_cases r
    · have hcount : (0 :: t).count 1 = t.count 1 := by
        rw [List.count_cons]; simp
      rw [hcount]
      have h0 : dcgAux k (0 :: t) = dcgAux (k + 1) t := by
        rw [dcgAux_cons]; simp
      rw [h0]
      exact le_trans (ih ht (k + 1)) (dcgAux_shift_replicate_le (t.count 1) k)
    · have hcount : (1 :: t).count 1 = t.count 1 + 1 := by
        rw [List.count_cons]; simp
      rw [hcount, List.replicate_succ, dcgAux_cons, dcgAux_cons]
      exact add_le_add_left (ih ht (k + 1)) _

theorem sorted_desc_binary (l : List ℕ) :
    l.Sorted descRel → (∀ r ∈ l, r ≤ 1) →
    l = List.replicate (l.count 1) 1 ++ List.replicate (l.length - l.count 1) 0 := by
  induction l with
  | nil => intro _ _; simp
  | cons a t ih =>
    intro hs hle
    have hst := List.sorted_cons.mp hs
    have ha : a ≤ 1 := hle a (by simp)
    interval_cases a
    · have hzero : ∀ b ∈ t, b = 0 := fun b hb => Nat.le_zero.mp (hst.1 b hb)
      have hrep : t = List.replicate t.length 0 :=
        List.eq_replicate_iff.mpr ⟨rfl, hzero⟩
      have hcount : (0 :: t).count 1 = 0 := by
        rw [List.count_eq_zero]
        intro hmem
        rcases List.mem_cons.mp hmem with h | h
        · exact one_ne_zero h
        · exact one_ne_zero (hzero 1 h)
      rw [hcount]
      simp only [List.replicate_zero, List.nil_append, List.length_cons, Nat.sub_zero]
      rw [List.replicate_succ]
      exact congrArg (0 :: ·) hrep
    · have hch := ih hst.2 (fun x hx => hle x (List.mem_cons_of_mem _ hx))
      have hcount : (1 :: t).count 1 = t.count 1 + 1 := by
        rw [List.count_cons]; simp
      have hcle : t.count 1 ≤ t.length := List.count_le_length 1 t
      rw [hcount, List.replicate_succ, List.cons_append, List.length_cons]
      have hlen : t.length + 1 - (t.count 1 + 1) = t.length - t.count 1 := by omega
      rw [hlen]
      exact congrArg (1 :: ·) hch

theorem dcg_le_ideal (rels : List ℕ) (hle : ∀ r ∈ rels, r ≤ 1) :
    dcg rels ≤ dcg (List.insertionSort descRel rels) := by
  have hperm : (List.insertionSort descRel rels).Perm rels :=
    List.perm_insertionSort _ _
  have hsorted : (List.insertionSort descRel rels).Sorted descRel :=
    List.sorted_insertionSort _ _
  have hle' : ∀ r ∈ List.insertionSort descRel rels, r ≤ 1 :=
    fun r hr => hle r (hperm.mem_iff.mp hr)
  have hcount : (List.insertionSort descRel rels).count 1 = rels.count 1 :=
    hperm.count_eq 1
  have hchar := sorted_desc_binary _ hsorted hle'
  unfold dcg
  calc dcgAux 0 rels
      ≤ dcgAux 0 (List.replicate (rels.count 1) 1) := dcgAux_le_count_one rels hle 0
    _ = dcgAux 0 (List.insertionSort descRel rels) := by
        conv_rhs => rw [hchar]
        rw [dcgAux_append, dcgAux_replicate_zero, hcount, add_zero]

theorem relevance_scores_le_one (gt : List (String × Finset String)) (n : ℕ)
    (p : String × List String) : ∀ r ∈ relevance_scores gt n p, r ≤ 1 := by
  intro r hr
  rcases List.mem_map.mp hr with ⟨pid, _, rfl⟩
  split_ifs <;> simp

theorem ndcgOf_mem_unit (gt : List (String × Finset String)) (n : ℕ)
    (p : String × List String) : 0 ≤ ndcgOf gt n p ∧ ndcgOf gt n p ≤ 1 := by
  unfold ndcgOf
  split_ifs with h
  · constructor
    · exact div_nonneg (dcgAux_nonneg _ 0) h.le
    · rw [div_le_one h]
      exact dcg_le_ideal _ (relevance_scores_le_one gt n p)
  · norm_num

theorem recallOf_mem_unit (gt : List (String × Finset String)) (n : ℕ)
    (p : String × List String) (h : ¬ gtLookup gt p.1 = ∅) :
    0 ≤ recallOf gt n p ∧ recallOf gt n p ≤ 1 := by
  unfold recallOf
  have hpos : 0 < ((gtLookup gt p.1).card : ℚ) := by
    have : 0 < (gtLookup gt p.1).card :=
      Finset.card_pos.mpr (Finset.nonempty_iff_ne_empty.mpr h)
    exact_mod_cast this
  constructor
  · exact div_nonneg (Nat.cast_nonneg _) hpos.le
  · rw [div_le_one hpos]
    exact_mod_cast Finset.card_le_card Finset.inter_subset_right

theorem list_avg_mem_unit {K : Type} [LinearOrderedField K] (l : List K)
    (hne : l ≠ []) (h : ∀ x ∈ l, 0 ≤ x ∧ x ≤ 1) :
    0 ≤ l.sum / (l.length : K) ∧ l.sum / (l.length : K) ≤ 1 := by
  have hlen : 0 < (l.length : K) := by
    have : 0 < l.length := List.length_pos.mpr hne
    exact_mod_cast this
  constructor
  · exact div_nonneg (List.sum_nonneg fun x hx => (h x hx).1) hlen.le
  · rw [div_le_one hlen]
    calc l.sum ≤ l.length • (1 : K) :=
          List.sum_le_card_nsmul l 1 (fun x hx => (h x hx).2)
      _ = (l.length : K) := by simp

/-- C7: on every pair of prediction and ground-truth maps in which at least
one prediction entry has non-empty ground truth, and for every `n : ℕ`, both
`recall_at_n` and `tndcg_at_n` return a value, and both values lie in the
closed interval `[0, 1]`. -/
theorem metrics_in_unit_interval (preds : List (String × List String))
    (gt : List (String × Finset String)) (n : ℕ)
    (hx : ∃ p ∈ preds, ¬ gtLookup gt p.1 = ∅) :
    (∃ q, recall_at_n preds gt n = some q ∧ 0 ≤ q ∧ q ≤ 1)
      ∧ (∃ v, tndcg_at_n preds gt n = some v ∧ 0 ≤ v ∧ v ≤ 1) := by
  rcases hx with ⟨p0, hp0, hp0t⟩
  have hmem : p0 ∈ preds.filter (fun p => decide (scored gt p)) :=
    List.mem_filter.mpr ⟨hp0, by simpa [scored] using hp0t⟩
  have hflt : preds.filter (fun p => decide (scored gt p)) ≠ [] := by
    intro h0; rw [h0] at hmem; cases hmem
  have hlen : ¬ (preds.filter (fun p => decide (scored gt p))).length = 0 := by
    rw [List.length_eq_zero]; exact hflt
  have hsc : ∀ p ∈ preds.filter (fun p => decide (scored gt p)),
      ¬ gtLookup gt p.1 = ∅ := by
    intro p hp
    have := (List.mem_filter.mp hp).2
    simpa [scored] using this
  constructor
  · have havg := list_avg_mem_unit
      ((preds.filter (fun p => decide (scored gt p))).map (recallOf gt n))
      (by simpa using hflt)
      (by
        intro x hx'
        rcases List.mem_map.mp hx' with ⟨p, hp, rfl⟩
        exact recallOf_mem_unit gt n p (hsc p hp))
    rw [List.length_map] at havg
    exact ⟨_, by rw [recall_at_n_eq, if_neg hlen], havg.1, havg.2⟩
  · have havg := list_avg_mem_unit
      ((preds.filter (fun p => decide (scored gt p))).map (ndcgOf gt n))
      (by simpa using hflt)
      (by
        intro x hx'
        rcases List.mem_map.mp hx' with ⟨p, _, rfl⟩
        exact ndcgOf_mem_unit gt n p)
    rw [List.length_map] at havg
    exact ⟨_, by rw [tndcg_at_n_eq, if_neg hlen], havg.1, havg.2⟩

/-- C7 witness: the metrics at the spec's Recall@N scenario, with `n = 3`,
both return a value in `[0, 1]`. -/
theorem metrics_in_unit_interval_witness :
    (∃ q, recall_at_n scenarioPreds scenarioGT 3 = some q ∧ 0 ≤ q ∧ q ≤ 1)
      ∧ (∃ v, tndcg_at_n scenarioPreds scenarioGT 3 = some v ∧ 0 ≤ v ∧ v ≤ 1) :=
  metrics_in_unit_interval scenarioPreds scenarioGT 3
    ⟨("x", ["a", "b", "c"]), by decide, by decide⟩

theorem argsort_perm {α : Type} [LinearOrder α] (xs : List α) :
    (argsort xs).Perm (List.range xs.length) := by
  have h := (List.perm_insertionSort argRel xs.enum).map Prod.fst
  rw [List.enum_map_fst] at h
  exact h

theorem mem_argsort {α : Type} [LinearOrder α] (xs : List α) (j : ℕ) :
    j ∈ argsort xs ↔ j < xs.length := by
  rw [(argsort_perm xs).mem_iff, List.mem_range]

theorem mem_neighbor_idx {α : Type} [LinearOrder α] (sim : List (List α))
    (i j : ℕ) :
    j ∈ neighbor_idx sim i ↔ j < (sim.getD i []).length ∧ j ≠ i := by
  unfold neighbor_idx
  rw [List.mem_filter, List.mem_reverse, mem_argsort]
  simp

theorem sim_matrix_length (embs : List (List ℝ)) :
    (sim_matrix embs).length = embs.length := by
  simp [sim_matrix, normed_embs]

theorem sim_matrix_row_length (embs : List (List ℝ)) (i : ℕ)
    (hi : i < embs.length) :
    ((sim_matrix embs).getD i []).length = embs.length := by
  have hi' : i < (sim_matrix embs).length := by
    rw [sim_matrix_length]; exact hi
  rw [List.getD_eq_getElem _ _ hi']
  simp [sim_matrix, normed_embs]

/-- C1: for every real embedding matrix of `M` rows, every index mapping that
is total and injective on `0..M-1`, every `n` (the pipeline default is 20)
and every row `i < M`, the `i`-th entry of `topn_recommendations` over the
cosine `sim_matrix` pairs `i`'s id with its neighbor list, and that neighbor
list does not contain item `i`'s own id, has length at most `n`, and contains
only ids drawn from the index mapping of the matrix rows. -/
theorem topn_neighbor_lists_sound (embs : List (List ℝ)) (idMap : ℕ → String)
    (n : ℕ)
    (hinj : ∀ a < embs.length, ∀ b < embs.length, idMap a = idMap b → a = b)
    (i : ℕ) (hi : i < embs.length) :
    (topn_recommendations (sim_matrix embs) idMap n)[i]?
        = some (idMap i, neighbor_list (sim_matrix embs) idMap n i)
      ∧ idMap i ∉ neighbor_list (sim_matrix embs) idMap n i
      ∧ (neighbor_list (sim_matrix embs) idMap n i).length ≤ n
      ∧ ∀ s ∈ neighbor_list (sim_matrix embs) idMap n i,
          ∃ j, j < embs.length ∧ j ≠ i ∧ s = idMap j := by
  have hmem : ∀ s ∈ neighbor_list (sim_matrix embs) idMap n i,
      ∃ j, j < embs.length ∧ j ≠ i ∧ s = idMap j := by
    intro s hs
    have hs' := List.mem_of_mem_take hs
    rcases List.mem_map.mp hs' with ⟨j, hj, rfl⟩
    have hj' := (mem_neighbor_idx _ i j).mp hj
    rw [sim_matrix_row_length embs i hi] at hj'
    exact ⟨j, hj'.1, hj'.2, rfl⟩
  refine ⟨?_, ?_, ?_, hmem⟩
  · have hi' : i < (sim_matrix embs).length := by
      rw [sim_matrix_length]; exact hi
    unfold topn_recommendations
    rw [List.getElem?_map]
    simp [List.getElem?_range, hi']
  · intro hcontra
    rcases hmem _ hcontra with ⟨j, hjM, hjne, hje⟩
    exact hjne (hinj i hi j hjM hje).symm
  · exact List.length_take_le n _

/-- C1 witness: soundness applied at the concrete two-row real embedding
matrix — row 0's neighbor list avoids row 0's own id. -/
theorem topn_neighbor_lists_sound_witness :
    idMapPair 0 ∉ neighbor_list (sim_matrix embsPair) idMapPair 20 0 :=
  (topn_neighbor_lists_sound embsPair idMapPair 20 (by decide) 0 (by decide)).2.1

theorem neighbor_idx_pairwise {α : Type} [LinearOrder α] (sim : List (List α))
    (i : ℕ) :
    (neighbor_idx sim i).Pairwise (fun a b =>
      ∀ (hb : b < (sim.getD i []).length) (ha : a < (sim.getD i []).length),
        (sim.getD i []).get ⟨b, hb⟩ < (sim.getD i []).get ⟨a, ha⟩
          ∨ ((sim.getD i []).get ⟨b, hb⟩ = (sim.getD i []).get ⟨a, ha⟩
              ∧ b ≤ a)) := by
  have hsorted : (List.insertionSort argRel (sim.getD i []).enum).Sorted argRel :=
    List.sorted_insertionSort _ _
  have hmem : ∀ p ∈ List.insertionSort argRel (sim.getD i []).enum,
      (sim.getD i [])[p.1]? = some p.2 := by
    intro p hp
    have : p ∈ (sim.getD i []).enum :=
      (List.perm_insertionSort argRel _).mem_iff.mp hp
    exact List.mem_enum_iff_getElem?.mp this
  have hpw : (argsort (sim.getD i [])).Pairwise (fun a b =>
      ∀ (ha : a < (sim.getD i []).length) (hb : b < (sim.getD i []).length),
        (sim.getD i []).get ⟨a, ha⟩ < (sim.getD i []).get ⟨b, hb⟩
          ∨ ((sim.getD i []).get ⟨a, ha⟩ = (sim.getD i []).get ⟨b, hb⟩
              ∧ a ≤ b)) := by
    unfold argsort
    rw [List.pairwise_map]
    have hstrong := List.Pairwise.and_mem.mp hsorted
    refine hstrong.imp ?_
    rintro p q ⟨hpmem, hqmem, hrel⟩ ha hb
    have hp := hmem p hpmem
    have hq := hmem q hqmem
    rw [List.getElem?_eq_getElem ha] at hp
    rw [List.getElem?_eq_getElem hb] at hq
    have hpv : (sim.getD i []).get ⟨p.1, ha⟩ = p.2 := by
      simpa using Option.some.inj hp
    have hqv : (sim.getD i []).get ⟨q.1, hb⟩ = q.2 := by
      simpa using Option.some.inj hq
    rw [hpv, hqv]
    exact hrel
  have hrev : ((argsort (sim.getD i [])).reverse).Pairwise (fun a b =>
      ∀ (hb : b < (sim.getD i []).length) (ha : a < (sim.getD i []).length),
        (sim.getD i []).get ⟨b, hb⟩ < (sim.getD i []).get ⟨a, ha⟩
          ∨ ((sim.getD i []).get ⟨b, hb⟩ = (sim.getD i []).get ⟨a, ha⟩
              ∧ b ≤ a)) :=
    List.pairwise_reverse.mpr hpw
  exact hrev.filter _

/-- C2 (amended): in the top-N build the columns `j ≠ i` of row `i` appear in
the neighbor index list — and hence in the neighbor list, its image under the
index mapping truncated to `n` — in non-increasing order of similarity.  This
ranking property is independent of the tie order, so it holds of the program
for any behaviour of `np.argsort` on equal values.  No universal
equal-similarity tie rule is asserted: the counterexample shows the
smaller-index-first rule of the claim false on a small row (where numpy's
sort is genuinely stable), and on longer rows numpy's unstable default sort
leaves the tie order implementation-defined. -/
theorem topn_ranked_desc {α : Type} [LinearOrder α] (sim : List (List α))
    (idMap : ℕ → String) (n i : ℕ) :
    ((neighbor_idx sim i).Pairwise (fun a b =>
        ∀ (hb : b < (sim.getD i []).length) (ha : a < (sim.getD i []).length),
          (sim.getD i []).get ⟨b, hb⟩ ≤ (sim.getD i []).get ⟨a, ha⟩))
      ∧ neighbor_list sim idMap n i = ((neighbor_idx sim i).map idMap).take n := by
  constructor
  · refine (neighbor_idx_pairwise sim i).imp ?_
    intro a b h hb ha
    rcases h hb ha with hlt | ⟨heq2, _⟩
    · exact le_of_lt hlt
    · exact le_of_eq heq2
  · rfl

/-- C2 witness: the descending-ranking statement applied at the all-ties
integer similarity matrix. -/
theorem topn_ranked_desc_witness :
    ((neighbor_idx simTie 0).Pairwise (fun a b =>
        ∀ (hb : b < (simTie.getD 0 []).length) (ha : a < (simTie.getD 0 []).length),
          (simTie.getD 0 []).get ⟨b, hb⟩ ≤ (simTie.getD 0 []).get ⟨a, ha⟩))
      ∧ neighbor_list simTie idMapDigits 20 0
        = ((neighbor_idx simTie 0).map idMapDigits).take 20 :=
  topn_ranked_desc simTie idMapDigits 20 0

/-- C2 counterexample: with three pairwise-identical embeddings every
similarity in row 0 is tied; on a row of three elements numpy's argsort is an
insertion sort — genuinely stable — and the `[::-1]` reversal puts ties in
descending index order, so the top-N construction yields the neighbor list
`["2", "1"]` for row 0 and not `["1", "2"]` as the smaller-index-first
tie-break of the claim states. -/
theorem topn_tiebreak_counterexample :
    neighbor_list simTie idMapDigits 20 0 = ["2", "1"]
      ∧ neighbor_list simTie idMapDigits 20 0 ≠ ["1", "2"] :=
  ⟨by decide, by decide⟩

theorem except_bind_error {γ δ : Type} (e : String) (g : γ → Except String δ) :
    (Except.error e : Except String γ) >>= g = Except.error e := rfl

theorem except_bind_ok {γ δ : Type} (a : γ) (g : γ → Except String δ) :
    (Except.ok a : Except String γ) >>= g = g a := rfl

theorem except_pure_bind {γ δ : Type} (a : γ) (g : γ → Except String δ) :
    (pure a : Except String γ) >>= g = g a := rfl

theorem mem_fst_dictInsert_self (m : List (String × List ℚ)) (k : String)
    (v : List ℚ) : k ∈ (dictInsert m k v).map Prod.fst := by
  unfold dictInsert
  split_ifs with h
  · rcases List.any_eq_true.mp h with ⟨p, hp, hpk⟩
    refine List.mem_map.mpr ⟨(p.1, v), List.mem_map.mpr ⟨p, hp, ?_⟩, ?_⟩
    · rw [if_pos hpk]
    · exact beq_iff_eq.mp hpk
  · simp

theorem mem_fst_dictInsert_of_mem (m : List (String × List ℚ)) (k : String)
    (v : List ℚ) (k' : String) (h : k' ∈ m.map Prod.fst) :
    k' ∈ (dictInsert m k v).map Prod.fst := by
  unfold dictInsert
  split_ifs with hany
  · rcases List.mem_map.mp h with ⟨p, hp, rfl⟩
    refine List.mem_map.mpr ⟨if p.1 == k then (p.1, v) else p,
      List.mem_map.mpr ⟨p, hp, rfl⟩, ?_⟩
    split_ifs <;> rfl
  · simp [h]

theorem embeddingLoop_fold (encode : String → Except String (List ℚ))
    (split : String → List String) (over_limit_ids : List String) :
    ∀ (data : List MaterialRecord) (acc : List (String × List ℚ)),
      ((∃ m, data.foldlM
            (fun embeddings d => do
              let emb ← embedItem encode split over_limit_ids d
              pure (dictInsert embeddings (pathName d.id) emb)) acc
            = Except.ok m)
          ↔ ∀ d ∈ data, ∃ e, embedItem encode split over_limit_ids d = Except.ok e)
        ∧ ∀ m, data.foldlM
            (fun embeddings d => do
              let emb ← embedItem encode split over_limit_ids d
              pure (dictInsert embeddings (pathName d.id) emb)) acc
            = Except.ok m →
          ∀ k, (k ∈ acc.map Prod.fst ∨ ∃ d ∈ data, k = pathName d.id) →
            k ∈ m.map Prod.fst := by
  intro data
  induction data with
  | nil =>
    intro acc
    constructor
    · exact ⟨fun _ d hd => absurd hd (List.not_mem_nil d), fun _ => ⟨acc, rfl⟩⟩
    · intro m hm k hk
      have hacc : acc = m := by
        simp only [List.foldlM] at hm
        have hm' : (Except.ok acc : Except String (List (String × List ℚ)))
            = Except.ok m := hm
        exact Except.ok.inj hm'
      rcases hk with hk | ⟨d, hd, _⟩
      · rw [← hacc]; exact hk
      · exact absurd hd (List.not_mem_nil d)
  | cons d rest ih =>
    intro acc
    simp only [List.foldlM_cons]
    cases hEmb : embedItem encode split over_limit_ids d with
    | error e =>
      simp only [except_bind_error]
      constructor
      · constructor
        · rintro ⟨m, hm⟩
          exact Except.noConfusion hm
        · intro hall
          rcases hall d (List.mem_cons_self d rest) with ⟨e', he'⟩
          rw [hEmb] at he'
          exact Except.noConfusion he'
      · intro m hm
        exact Except.noConfusion hm
    | ok emb =>
      simp only [except_bind_ok, except_pure_bind]
      have ihr := ih (dictInsert acc (pathName d.id) emb)
      constructor
      · constructor
        · rintro ⟨m, hm⟩ d' hd'
          rcases List.mem_cons.mp hd' with rfl | hd'
          · exact ⟨emb, hEmb⟩
          · exact ihr.1.mp ⟨m, hm⟩ d' hd'
        · intro hall
          exact ihr.1.mpr (fun d' hd' => hall d' (List.mem_cons_of_mem d hd'))
      · intro m hm k hk
        refine ihr.2 m hm k ?_
        rcases hk with hk | ⟨d', hd', hk⟩
        · exact Or.inl (mem_fst_dictInsert_of_mem _ _ _ _ hk)
        · rcases List.mem_cons.mp hd' with rfl | hd'
          · exact Or.inl (hk ▸ mem_fst_dictInsert_self acc (pathName d'.id) emb)
          · exact Or.inr ⟨d', hd', hk⟩

/-- C8 (amended): the embedding loop never skips an item — it succeeds
exactly when every item's embedding step succeeds, so one per-item encoding
failure aborts the whole run; and on success every item of the corpus,
including items with empty text, has an entry in the embeddings dict under
its basename (hence appears in the index mapping). -/
theorem embeddingLoop_no_skip (encode : String → Except String (List ℚ))
    (split : String → List String) (over_limit_ids : List String)
    (data : List MaterialRecord) :
    ((∃ m, embeddingLoop encode split over_limit_ids data = Except.ok m)
        ↔ ∀ d ∈ data, ∃ e, embedItem encode split over_limit_ids d = Except.ok e)
      ∧ ∀ m, embeddingLoop encode split over_limit_ids data = Except.ok m →
          ∀ d ∈ data, pathName d.id ∈ m.map Prod.fst := by
  have h := embeddingLoop_fold encode split over_limit_ids data []
  refine ⟨h.1, ?_⟩
  intro m hm d hd
  exact h.2 m hm (pathName d.id) (Or.inr ⟨d, hd, rfl⟩)

/-- C8 witness: with a total encoder the loop embeds every record of the
corpus with an empty-text item — the empty-text record `materials/5.pdf` is
present in the result under its basename, not skipped. -/
theorem embeddingLoop_no_skip_witness :
    pathName "materials/5.pdf"
      ∈ ([("5.pdf", [(1 : ℚ)]), ("6.pdf", [1])].map Prod.fst) :=
  (embeddingLoop_no_skip encodeConst splitOne [] dataWithEmpty).2
    [("5.pdf", [(1 : ℚ)]), ("6.pdf", [1])] (by rfl)
    ⟨"materials/5.pdf", ""⟩ (by decide)

/-- C8 counterexample: with an encoder that fails on empty text (the
"unencodable" case of the claim), the batch aborts at the empty-text item
instead of skipping it and continuing: the whole run returns an error,
and the later record `materials/6.pdf` is never embedded. -/
theorem embedding_skip_counterexample :
    embeddingLoop encodeFailEmpty splitOne [] dataWithEmpty
      = Except.error "cannot encode" := rfl

end DatasetRecsys
